import Mathlib

/-!
Shallow embedding of `src/lib/python/filterbank.py` (module `filterbank`),
a reader/writer for sigproc filterbank files, together with proofs about it.

Python floats are modelled as rationals (`ℚ`), Python ints as `ℤ`, byte
streams as `List Nat`.  The low-level record codec (`sigproc.read_hdr_val`,
`sigproc.addto_hdr`) lives in `sigproc.py`, which is not part of the sources
here; it is modelled from the specification of the on-disk format (length
prefixed names, a closed name → type table, 32-bit ints and 64-bit doubles).
-/

/-- Errors raised by the Python code, as distinct catchable conditions.
`ioError` is reading past the end of the stream; `malformedHeader` is the
record decoder rejecting an unknown field name; `badStream` marks a record
sequence that no byte stream can decode to (used only by the codec model);
`keyError` is a failed header-dictionary lookup via `__getattr__`;
`notImplemented` is `get_dtype`'s `NotImplementedError`; `zeroDivision` is
Python's `ZeroDivisionError`; `valueError` is `numpy.memmap` rejecting a
negative shape; `nameError` is an unbound variable. -/
inductive Err where
  | ioError
  | malformedHeader
  | badStream
  | keyError (name : String)
  | typeMismatch
  | notImplemented
  | zeroDivision
  | valueError
  | nameError (var : String)
deriving DecidableEq, Repr

/-- A typed header value: 32-bit signed integer, double, or string. -/
inductive HdrVal where
  | int (i : ℤ)
  | dbl (q : ℚ)
  | str (s : String)
deriving DecidableEq, Repr

/-- One on-wire tagged record, at the record level of abstraction: a name
and an optional typed value (sentinel records carry no value). -/
abbrev RawRecord := String × Option HdrVal

/-- A Python dictionary with string keys, as an ordered association list. -/
abbrev Dict := List (String × HdrVal)

/-- The declared type of a header field. -/
inductive HdrType where
  | int
  | dbl
  | str
deriving DecidableEq, Repr

/-- Modelled from the spec: the closed name → type vocabulary of header
fields (`sigproc.py`'s table is not under the sources here).  The spec's
required fields (first-channel frequency, channel offset, channel count,
bits per sample, sample interval) plus pass-through metadata fields. -/
def headerTable : List (String × HdrType) :=
  [("fch1", HdrType.dbl), ("foff", HdrType.dbl), ("tsamp", HdrType.dbl),
   ("tstart", HdrType.dbl), ("nchans", HdrType.int), ("nbits", HdrType.int),
   ("machine_id", HdrType.int), ("telescope_id", HdrType.int),
   ("source_name", HdrType.str)]

/-- Whether a value carries the declared type. -/
def valMatches : HdrType → HdrVal → Bool
  | HdrType.int, HdrVal.int _ => true
  | HdrType.dbl, HdrVal.dbl _ => true
  | HdrType.str, HdrVal.str _ => true
  | _, _ => false

/-- Modelled from the spec: on-wire size in bytes of an encoded value
(32-bit int, 64-bit double, length-prefixed string). -/
def valSize : HdrVal → Nat
  | HdrVal.int _ => 4
  | HdrVal.dbl _ => 8
  | HdrVal.str s => 4 + s.length

/-- Modelled from the spec: on-wire size in bytes of one tagged record
(4-byte length prefix, the name's characters, then the value if any). -/
def recSize : RawRecord → Nat
  | (n, none) => 4 + n.length
  | (n, some v) => 4 + n.length + valSize v

/-- Total on-wire size of a record sequence. -/
def streamSize (recs : List RawRecord) : Nat :=
  (recs.map recSize).sum

/-- Result of decoding one tagged record. -/
inductive ParsedRec where
  | sentinel (name : String)
  | field (name : String) (v : HdrVal)
deriving DecidableEq, Repr

/-- Modelled from the spec: `sigproc.read_hdr_val` decodes one tagged
record.  It reads the length-prefixed name; the two sentinel names carry no
value; any other name is looked up in the closed vocabulary (unknown names
fail with `MalformedHeader`) and its value read with the declared type's
encoding.  A record whose stored value contradicts the table corresponds to
no byte stream and is rejected as `badStream`. -/
def read_hdr_val (r : RawRecord) : Except Err ParsedRec :=
  if r.1 = "HEADER_START" ∨ r.1 = "HEADER_END" then
    match r.2 with
    | none => Except.ok (ParsedRec.sentinel r.1)
    | some _ => Except.error Err.badStream
  else
    match headerTable.find? (fun p => decide (p.1 = r.1)), r.2 with
    | none, _ => Except.error Err.malformedHeader
    | some _, none => Except.error Err.badStream
    | some t, some v =>
        if valMatches t.2 v then Except.ok (ParsedRec.field r.1 v)
        else Except.error Err.badStream

/-- Python dictionary assignment `d[k] = v`: replace in place if the key is
present, else append. -/
def dictInsert (d : Dict) (k : String) (v : HdrVal) : Dict :=
  if d.any (fun p => decide (p.1 = k)) then
    d.map (fun p => if p.1 = k then (k, v) else p)
  else
    d ++ [(k, v)]

/-- Python dictionary lookup `d[k]` as an option (first matching key). -/
def dlookup (d : Dict) (k : String) : Option HdrVal :=
  (d.find? (fun p => decide (p.1 = k))).map (fun p => p.2)

/-- Fold a list of key/value pairs into a dictionary by repeated
assignment. -/
def buildDict (init : Dict) (ps : List (String × HdrVal)) : Dict :=
  ps.foldl (fun d p => dictInsert d p.1 p.2) init

/-- The `(name, value)` pairs of the records that decode to non-sentinel
fields, in stream order. -/
def fieldsOf (rs : List RawRecord) : List (String × HdrVal) :=
  rs.filterMap (fun r =>
    match read_hdr_val r with
    | Except.ok (ParsedRec.field n v) => some (n, v)
    | _ => none)

/-- A record that decodes successfully and is not the end sentinel (so the
header loop consumes it and keeps going). -/
def recOkNonEnd (r : RawRecord) : Bool :=
  match read_hdr_val r with
  | Except.ok (ParsedRec.sentinel n) => decide (n ≠ "HEADER_END")
  | Except.ok (ParsedRec.field _ _) => true
  | Except.error _ => false

/-- The `while (paramname != 'HEADER_END')` loop of `read_header`: read one
record, store it unless its name is a sentinel, stop after consuming the
end sentinel; `pos` is the stream position (`filfile.tell()`). -/
def readHeaderLoop : List RawRecord → Dict → Nat → Except Err (Dict × Nat)
  | [], _, _ => Except.error Err.ioError
  | r :: rest, hdr, pos =>
    match read_hdr_val r with
    | Except.error e => Except.error e
    | Except.ok (ParsedRec.sentinel n) =>
        if n = "HEADER_END" then Except.ok (hdr, pos + recSize r)
        else readHeaderLoop rest hdr (pos + recSize r)
    | Except.ok (ParsedRec.field n v) =>
        readHeaderLoop rest (dictInsert hdr n v) (pos + recSize r)

/-- `filterbank.read_header`: starting at stream position 0 with an empty
dictionary, loop until the end sentinel; return the dictionary and the
position after the end sentinel (`header_size`). -/
def read_header (recs : List RawRecord) : Except Err (Dict × Nat) :=
  readHeaderLoop recs [] 0

/-- `filterbank.get_dtype`: `nbits` outside `[32, 16, 8]` raises
`NotImplementedError`; 32 maps to `'float32'`, 16 and 8 to `'uint%d'`. -/
def get_dtype (nbits : ℤ) : Except Err String :=
  if ¬ (nbits = 32 ∨ nbits = 16 ∨ nbits = 8) then Except.error Err.notImplemented
  else if nbits = 32 then Except.ok "float32"
  else Except.ok ("uint" ++ toString nbits)

/-- A filterbank file: its header region parsed as tagged records, and the
raw bytes that follow.  The byte image of the header region is opaque at
this abstraction (only record lengths are modelled, see `fileBytes`). -/
structure FilFile where
  recs : List RawRecord
  data : List Nat
deriving DecidableEq, Repr

/-- The file's byte image: the header region contributes only its length
(its bytes are never inspected by the code under proof), followed by the
data bytes. -/
def fileBytes (f : FilFile) : List Nat :=
  ((f.recs.map (fun r => List.replicate (recSize r) 0)).flatten) ++ f.data

/-- Attribute access `self.<k>` routed through `__getattr__` into the header
dictionary, expecting a double: missing keys raise `KeyError`. -/
def getDbl (d : Dict) (k : String) : Except Err ℚ :=
  match dlookup d k with
  | none => Except.error (Err.keyError k)
  | some (HdrVal.dbl q) => Except.ok q
  | some _ => Except.error Err.typeMismatch

/-- Attribute access `self.<k>` routed through `__getattr__` into the header
dictionary, expecting an integer: missing keys raise `KeyError`. -/
def getInt (d : Dict) (k : String) : Except Err ℤ :=
  match dlookup d k with
  | none => Except.error (Err.keyError k)
  | some (HdrVal.int i) => Except.ok i
  | some _ => Except.error Err.typeMismatch

/-- The state of a successfully constructed `FilterbankFile` object: the
cached header, geometry and the memory-mapped spectra (each spectrum is
`bytes_per_spectrum` raw bytes, row `i` starting at byte
`header_size + i * bytes_per_spectrum` of the file).  `warned` records
whether the non-integer-spectra warning fired. -/
structure Handle where
  header : Dict
  header_size : Nat
  frequencies : List ℚ
  is_hifreq_first : Bool
  data_size : Nat
  bytes_per_spectrum : Nat
  nspec : Nat
  warned : Bool
  dtype : String
  spectra : List (List Nat)
deriving DecidableEq, Repr, Inhabited

/-- Build the handle fields exactly as `FilterbankFile.__init__` computes
them on its success path (where `nchans * nbits / 8 > 0`, so Python's floor
arithmetic coincides with `Nat` division and modulus). -/
def mkHandle (f : FilFile) (hdr : Dict) (hsize : Nat) (a d : ℚ) (c b : ℤ)
    (dt : String) : Handle :=
  let bps : Nat := (Int.fdiv (c * b) 8).toNat
  let ds : Nat := (fileBytes f).length - hsize
  let nspec : Nat := ds / bps
  { header := hdr
    header_size := hsize
    frequencies := (List.range c.toNat).map (fun i : ℕ => a + d * (i : ℚ))
    is_hifreq_first := decide (d < 0)
    data_size := ds
    bytes_per_spectrum := bps
    nspec := nspec
    warned := decide (ds % bps ≠ 0)
    dtype := dt
    spectra := (List.range nspec).map
      (fun i => ((fileBytes f).drop (hsize + i * bps)).take bps) }

/-- `FilterbankFile.__init__`: parse the header, compute the channel
frequencies (`fch1`, `foff`, `nchans` looked up in that order), the data
size and `bytes_per_spectrum = nchans*nbits/8` (Python 2 floor division).
A zero `bytes_per_spectrum` raises `ZeroDivisionError` at the
`nspec = data_size / bytes_per_spectrum` line; then `get_dtype` is
evaluated (its `NotImplementedError` precedes the `memmap` call), and a
negative shape makes `numpy.memmap` raise `ValueError`. -/
def fbOpen (f : FilFile) : Except Err Handle := do
  let ph ← read_header f.recs
  let a ← getDbl ph.1 "fch1"
  let d ← getDbl ph.1 "foff"
  let c ← getInt ph.1 "nchans"
  let b ← getInt ph.1 "nbits"
  let bpsZ : ℤ := Int.fdiv (c * b) 8
  if bpsZ = 0 then Except.error Err.zeroDivision
  else do
    let dt ← get_dtype b
    if bpsZ < 0 then Except.error Err.valueError
    else Except.ok (mkHandle f ph.1 ph.2 a d c b dt)

/-- Resolve one Python slice bound against a list of length `n`: a negative
bound counts from the end (and clamps below at 0), a non-negative bound
clamps above at `n`. -/
def pyIdx (n : Nat) (i : ℤ) : Nat :=
  if i < 0 then (i + n).toNat else min i.toNat n

/-- Python/numpy basic slicing `l[i:j]` for integer bounds: total, never
raises, returns the elements between the resolved bounds. -/
def pySlice {α : Type} (l : List α) (i j : ℤ) : List α :=
  (l.take (pyIdx l.length j)).drop (pyIdx l.length i)

/-- `FilterbankFile.get_spectra`: `self.spectra[start:stop]`. -/
def get_spectra (h : Handle) (start stop : ℤ) : List (List Nat) :=
  pySlice h.spectra start stop

/-- `numpy.round` on a scalar: round half to even. -/
def roundHalfEven (q : ℚ) : ℤ :=
  let fl : ℤ := ⌊q⌋
  let frac : ℚ := q - (fl : ℚ)
  if frac < 1/2 then fl
  else if 1/2 < frac then fl + 1
  else if fl % 2 = 0 then fl else fl + 1

/-- `FilterbankFile.get_timeslice`: look up `tsamp` (a `KeyError` if it is
absent, a `ZeroDivisionError` if it is `0.0`), convert each bound with
`int(np.round(bound/tsamp))`, and delegate to `get_spectra`. -/
def get_timeslice (h : Handle) (start stop : ℚ) : Except Err (List (List Nat)) := do
  let ts ← getDbl h.header "tsamp"
  if ts = 0 then Except.error Err.zeroDivision
  else
    let startbins : ℤ := roundHalfEven (start / ts)
    let stopbins : ℤ := roundHalfEven (stop / ts)
    Except.ok (get_spectra h startbins stopbins)

/-- Evaluation of the unbound name `self` inside the module-level function
`create_filterbank_file` (its body iterates `self.header` and writes
`self.spectra`, but `self` is a method-only name): Python raises
`NameError`. -/
def selfAttr (attr : String) : Except Err Dict :=
  Except.error (Err.nameError "self")

/-- `filterbank.create_filterbank_file`: writes the start sentinel, then
iterates `self.header.keys()` — which raises `NameError` because `self` is
not bound in this module-level function — and would then write the end
sentinel and the flattened spectra. -/
def create_filterbank_file (outfn : String) (header : Dict)
    (spectra : Option (List Nat)) (verbose : Bool) :
    Except Err (List RawRecord × List Nat) := do
  let out : List RawRecord := [("HEADER_START", none)]
  let hdrOfSelf ← selfAttr "header"
  let out := out ++ hdrOfSelf.map (fun p => (p.1, some p.2))
  let out := out ++ [("HEADER_END", none)]
  match spectra with
  | some s => Except.ok (out, s)
  | none => Except.ok (out, [])

/-- Spec-side description of duplicate handling: the value of the last
occurrence of key `k` in a key/value list (later entries win). -/
def lastOcc : List (String × HdrVal) → String → Option HdrVal
  | [], _ => none
  | p :: ps, k =>
    match lastOcc ps k with
    | some v => some v
    | none => if p.1 = k then some p.2 else none

/-- Definition following the claim's words for out-of-range spectrum
access — "the requested range is truncated to the valid range
`[0, spectra_count)`" — to be compared against the code's actual slicing
semantics (`pySlice`). -/
def specClampSlice {α : Type} (l : List α) (i j : ℤ) : List α :=
  (l.take (min j.toNat l.length)).drop (min i.toNat l.length)

/-- Example header record stream: the scenario of the spec
(`fch1=1400.0, foff=-1.0, nchans=4, nbits=8, tsamp=0.001`). -/
def exRecs : List RawRecord :=
  [("HEADER_START", none), ("fch1", some (HdrVal.dbl 1400)),
   ("foff", some (HdrVal.dbl (-1))), ("nchans", some (HdrVal.int 4)),
   ("nbits", some (HdrVal.int 8)), ("tsamp", some (HdrVal.dbl (1/1000))),
   ("HEADER_END", none)]

/-- Example file with 10 data bytes: `bytes_per_spectrum = 4`, so the data
region is not an integer number of spectra (`data_size = 10`). -/
def exFile : FilFile :=
  { recs := exRecs, data := [1, 2, 3, 4, 5, 6, 7, 8, 9, 10] }

/-- The handle obtained by opening `exFile`. -/
def hdlEx : Handle :=
  match fbOpen exFile with
  | Except.ok h => h
  | Except.error _ => default

/-- Example file with 12 data bytes: exactly 3 spectra of 4 bytes. -/
def exFile9 : FilFile :=
  { recs := exRecs, data := [1, 2, 3, 4, 5, 6, 7, 8, 9, 10, 11, 12] }

/-- The handle obtained by opening `exFile9` (`nspec = 3`). -/
def hdl9 : Handle :=
  match fbOpen exFile9 with
  | Except.ok h => h
  | Except.error _ => default

/-- Example file whose header declares `nchans=1, nbits=4`:
`nchans * nbits / 8 == 0` under Python 2 floor division. -/
def exFile4 : FilFile :=
  { recs := [("HEADER_START", none), ("fch1", some (HdrVal.dbl 1400)),
             ("foff", some (HdrVal.dbl (-1))), ("nchans", some (HdrVal.int 1)),
             ("nbits", some (HdrVal.int 4)), ("HEADER_END", none)],
    data := [1, 2, 3] }

/-- Example file whose header declares `nchans=1, nbits=64` (unsupported
sample width with a positive `bytes_per_spectrum`). -/
def exFile64 : FilFile :=
  { recs := [("HEADER_START", none), ("fch1", some (HdrVal.dbl 1400)),
             ("foff", some (HdrVal.dbl (-1))), ("nchans", some (HdrVal.int 1)),
             ("nbits", some (HdrVal.int 64)), ("HEADER_END", none)],
    data := [1, 2, 3, 4, 5, 6, 7, 8] }

/-- Record stream whose first record is a known field, not `HEADER_START`. -/
def noStartRecs : List RawRecord :=
  [("nchans", some (HdrVal.int 4)), ("HEADER_END", none)]

/-- Record body (before the end sentinel) in which `nchans` appears twice. -/
def dupRecs : List RawRecord :=
  [("HEADER_START", none), ("nchans", some (HdrVal.int 4)),
   ("foff", some (HdrVal.dbl 1)), ("nchans", some (HdrVal.int 8))]

/-! ### Helper lemmas -/

lemma exceptBindOk {α β : Type} (x : α) (k : α → Except Err β) :
    (Except.ok x >>= k) = k x := rfl

lemma exceptBindErr {α β : Type} (e : Err) (k : α → Except Err β) :
    ((Except.error e : Except Err α) >>= k) = Except.error e := rfl

lemma streamSize_nil : streamSize [] = 0 := rfl

lemma streamSize_cons (r : RawRecord) (rs : List RawRecord) :
    streamSize (r :: rs) = recSize r + streamSize rs := by
  simp [streamSize]

lemma buildDict_nil (acc : Dict) : buildDict acc [] = acc := rfl

lemma buildDict_cons (acc : Dict) (p : String × HdrVal)
    (ps : List (String × HdrVal)) :
    buildDict acc (p :: ps) = buildDict (dictInsert acc p.1 p.2) ps := rfl

/-- The header loop consumes records up to and including the first end
sentinel, accumulates the non-sentinel fields by dictionary assignment, and
reports the position just after the end sentinel; later records are never
read. -/
lemma readHeaderLoop_append (rs : List RawRecord) :
    ∀ (rest : List RawRecord) (hdr : Dict) (pos : Nat),
    (∀ r ∈ rs, recOkNonEnd r = true) →
    readHeaderLoop (rs ++ ("HEADER_END", none) :: rest) hdr pos =
      Except.ok (buildDict hdr (fieldsOf rs),
        pos + streamSize rs + recSize ("HEADER_END", none)) := by
  induction rs with
  | nil =>
    intro rest hdr pos _
    simp [readHeaderLoop, read_hdr_val, buildDict, fieldsOf, streamSize_nil]
  | cons r rs ih =>
    intro rest hdr pos hv
    have hr : recOkNonEnd r = true := hv r (List.mem_cons_self r rs)
    have hv2 : ∀ x ∈ rs, recOkNonEnd x = true :=
      fun x hx => hv x (List.mem_cons_of_mem r hx)
    unfold recOkNonEnd at hr
    cases hval : read_hdr_val r with
    | error e => rw [hval] at hr; simp at hr
    | ok pr =>
      rw [hval] at hr
      cases pr with
      | sentinel n =>
        have hne : n ≠ "HEADER_END" := by simpa using hr
        have hfields : fieldsOf (r :: rs) = fieldsOf rs := by
          simp [fieldsOf, hval]
        rw [List.cons_append]
        simp only [readHeaderLoop, hval, hne, if_false]
        rw [ih rest hdr (pos + recSize r) hv2, hfields, streamSize_cons]
        simp only [Except.ok.injEq, Prod.mk.injEq]
        refine ⟨by trivial, by omega⟩
      | field n v =>
        have hfields : fieldsOf (r :: rs) = (n, v) :: fieldsOf rs := by
          simp [fieldsOf, hval]
        rw [List.cons_append]
        simp only [readHeaderLoop, hval]
        rw [ih rest (dictInsert hdr n v) (pos + recSize r) hv2, hfields,
          buildDict_cons, streamSize_cons]
        simp only [Except.ok.injEq, Prod.mk.injEq]
        refine ⟨by trivial, by omega⟩

/-- Specification of `read_header` on a stream whose body records all
decode to non-end records, followed by the end sentinel and arbitrary
trailing bytes. -/
lemma read_header_append (rs rest : List RawRecord)
    (hv : ∀ r ∈ rs, recOkNonEnd r = true) :
    read_header (rs ++ ("HEADER_END", none) :: rest) =
      Except.ok (buildDict [] (fieldsOf rs),
        streamSize rs + recSize ("HEADER_END", none)) := by
  unfold read_header
  rw [readHeaderLoop_append rs rest [] 0 hv]
  simp

/-- The reported header size never exceeds the starting position plus the
total on-wire size of the records. -/
lemma readHeaderLoop_size_le (recs : List RawRecord) :
    ∀ (hdr d : Dict) (pos sz : Nat),
    readHeaderLoop recs hdr pos = Except.ok (d, sz) →
    sz ≤ pos + streamSize recs := by
  induction recs with
  | nil =>
    intro hdr d pos sz hk
    simp [readHeaderLoop] at hk
  | cons r rest ih =>
    intro hdr d pos sz hk
    cases hval : read_hdr_val r with
    | error e =>
      simp only [readHeaderLoop, hval] at hk
      exact Except.noConfusion hk
    | ok pr =>
      cases pr with
      | sentinel n =>
        simp only [readHeaderLoop, hval] at hk
        by_cases hn : n = "HEADER_END"
        · rw [if_pos hn] at hk
          have hsz : sz = pos + recSize r := by
            cases hk
            rfl
          rw [hsz, streamSize_cons]
          omega
        · rw [if_neg hn] at hk
          have := ih hdr d (pos + recSize r) sz hk
          rw [streamSize_cons]
          omega
      | field n v =>
        simp only [readHeaderLoop, hval] at hk
        have := ih (dictInsert hdr n v) d (pos + recSize r) sz hk
        rw [streamSize_cons]
        omega

lemma read_header_size_le (recs : List RawRecord) (d : Dict) (sz : Nat)
    (hk : read_header recs = Except.ok (d, sz)) : sz ≤ streamSize recs := by
  have := readHeaderLoop_size_le recs [] d 0 sz hk
  omega

lemma fileBytes_length (f : FilFile) :
    (fileBytes f).length = streamSize f.recs + f.data.length := by
  unfold fileBytes streamSize
  rw [List.length_append, List.length_flatten, List.map_map]
  have hcomp : (List.length ∘ fun r : RawRecord => List.replicate (recSize r) (0 : Nat)) =
      recSize := funext fun r => by simp
  rw [hcomp]

lemma find_map_replace_self (d : Dict) (n : String) (v : HdrVal)
    (hany : d.any (fun p => decide (p.1 = n)) = true) :
    (d.map (fun p => if p.1 = n then (n, v) else p)).find?
      (fun p => decide (p.1 = n)) = some (n, v) := by
  induction d with
  | nil => simp at hany
  | cons p d ih =>
    by_cases hp : p.1 = n
    · rw [List.map_cons, if_pos hp, List.find?_cons_of_pos _ (by simp)]
    · rw [List.map_cons, if_neg hp, List.find?_cons_of_neg _ (by simp [hp])]
      exact ih (by simpa [hp] using hany)

lemma find_map_replace_other (d : Dict) (n : String) (v : HdrVal) (k : String)
    (hk : k ≠ n) :
    (d.map (fun p => if p.1 = n then (n, v) else p)).find?
      (fun p => decide (p.1 = k)) = d.find? (fun p => decide (p.1 = k)) := by
  induction d with
  | nil => rfl
  | cons p d ih =>
    by_cases hp : p.1 = n
    · have hpk : ¬ p.1 = k := by rw [hp]; exact fun h => hk h.symm
      rw [List.map_cons, if_pos hp,
        List.find?_cons_of_neg _ (by simpa using fun h : n = k => hk h.symm),
        List.find?_cons_of_neg _ (by simpa using hpk)]
      exact ih
    · rw [List.map_cons, if_neg hp]
      by_cases hpk : p.1 = k
      · rw [List.find?_cons_of_pos _ (by simpa using hpk),
          List.find?_cons_of_pos _ (by simpa using hpk)]
      · rw [List.find?_cons_of_neg _ (by simpa using hpk),
          List.find?_cons_of_neg _ (by simpa using hpk)]
        exact ih

lemma dlookup_append_some (d : Dict) (n : String) (v : HdrVal) (k : String)
    (w : HdrVal) (h : dlookup d k = some w) :
    dlookup (d ++ [(n, v)]) k = some w := by
  induction d with
  | nil => simp [dlookup] at h
  | cons p d ih =>
    unfold dlookup at h ih ⊢
    by_cases hpk : p.1 = k
    · rw [List.find?_cons_of_pos _ (by simpa using hpk)] at h
      rw [List.cons_append, List.find?_cons_of_pos _ (by simpa using hpk)]
      exact h
    · rw [List.find?_cons_of_neg _ (by simpa using hpk)] at h
      rw [List.cons_append, List.find?_cons_of_neg _ (by simpa using hpk)]
      exact ih h

lemma dlookup_append_none (d : Dict) (n : String) (v : HdrVal) (k : String)
    (h : dlookup d k = none) :
    dlookup (d ++ [(n, v)]) k = if k = n then some v else none := by
  induction d with
  | nil =>
    unfold dlookup
    by_cases hk : k = n
    · subst hk
      rw [List.nil_append, List.find?_cons_of_pos _ (by simp)]
      simp
    · rw [List.nil_append,
        List.find?_cons_of_neg _ (by simpa using fun hh : n = k => hk hh.symm)]
      simp [hk]
  | cons p d ih =>
    unfold dlookup at h ih ⊢
    have hpk : ¬ p.1 = k := by
      intro hh
      rw [List.find?_cons_of_pos _ (by simpa using hh)] at h
      simp at h
    rw [List.find?_cons_of_neg _ (by simpa using hpk)] at h
    rw [List.cons_append, List.find?_cons_of_neg _ (by simpa using hpk)]
    exact ih h

/-- Python dictionary assignment followed by lookup: the assigned key now
maps to the new value, every other key is untouched. -/
lemma dlookup_dictInsert (d : Dict) (n : String) (v : HdrVal) (k : String) :
    dlookup (dictInsert d n v) k = if k = n then some v else dlookup d k := by
  unfold dictInsert
  cases hany : d.any (fun p => decide (p.1 = n)) with
  | true =>
    rw [if_pos rfl]
    by_cases hk : k = n
    · subst hk
      unfold dlookup
      rw [find_map_replace_self d k v hany, if_pos rfl]
      rfl
    · unfold dlookup
      rw [find_map_replace_other d n v k hk, if_neg hk]
  | false =>
    rw [if_neg (by simp)]
    by_cases hk : k = n
    · subst hk
      have hnone : dlookup d k = none := by
        unfold dlookup
        rw [List.find?_eq_none.mpr]
        · rfl
        · intro x hx
          simpa using (List.any_eq_false.mp hany) x hx
      rw [dlookup_append_none d k v k hnone, if_pos rfl, if_pos rfl]
    · rw [if_neg hk]
      cases hd : dlookup d k with
      | some w => exact dlookup_append_some d n v k w hd
      | none => rw [dlookup_append_none d n v k hd, if_neg hk]

/-- Folding assignments and then looking up: the last assignment to `k`
wins; if `k` was never assigned the accumulator's binding shows through. -/
lemma dlookup_buildDict (ps : List (String × HdrVal)) :
    ∀ (acc : Dict) (k : String),
    dlookup (buildDict acc ps) k =
      match lastOcc ps k with
      | some v => some v
      | none => dlookup acc k := by
  induction ps with
  | nil => intro acc k; rfl
  | cons p ps ih =>
    intro acc k
    rw [buildDict_cons, ih (dictInsert acc p.1 p.2) k]
    cases hl : lastOcc ps k with
    | some v => simp [lastOcc, hl]
    | none =>
      simp only [lastOcc, hl]
      rw [dlookup_dictInsert]
      by_cases hk : k = p.1
      · rw [if_pos hk, if_pos hk.symm]
      · rw [if_neg hk, if_neg (fun h => hk h.symm)]

lemma lastOcc_isSome (ps : List (String × HdrVal)) (k : String) :
    (lastOcc ps k).isSome = true ↔ ∃ p ∈ ps, p.1 = k := by
  induction ps with
  | nil => simp [lastOcc]
  | cons p ps ih =>
    cases hl : lastOcc ps k with
    | some v =>
      simp only [lastOcc, hl, Option.isSome_some, true_iff]
      have := ih.mp (by rw [hl]; rfl)
      obtain ⟨q, hq, hqk⟩ := this
      exact ⟨q, List.mem_cons_of_mem p hq, hqk⟩
    | none =>
      simp only [lastOcc, hl]
      by_cases hp : p.1 = k
      · simp [hp]
      · rw [if_neg hp]
        constructor
        · intro h; simp at h
        · intro h
          exfalso
          obtain ⟨q, hq, hqk⟩ := h
          rcases List.mem_cons.mp hq with rfl | hq2
          · exact hp hqk
          · have h2 : (lastOcc ps k).isSome = true := ih.mpr ⟨q, hq2, hqk⟩
            rw [hl] at h2
            simp at h2

lemma keys_dictInsert_mem (d : Dict) (n : String) (v : HdrVal) (k : String) :
    k ∈ (dictInsert d n v).map Prod.fst ↔ k ∈ d.map Prod.fst ∨ k = n := by
  unfold dictInsert
  cases hany : d.any (fun p => decide (p.1 = n)) with
  | true =>
    rw [if_pos rfl]
    have hmemn : n ∈ d.map Prod.fst := by
      obtain ⟨p, hp, hpn⟩ := List.any_eq_true.mp hany
      exact List.mem_map.mpr ⟨p, hp, by simpa using hpn⟩
    constructor
    · intro h
      obtain ⟨p, hp, hpk⟩ := List.mem_map.mp h
      obtain ⟨q, hq, hqp⟩ := List.mem_map.mp hp
      by_cases hqn : q.1 = n
      · rw [if_pos hqn] at hqp
        right
        rw [← hpk, ← hqp]
      · rw [if_neg hqn] at hqp
        left
        exact List.mem_map.mpr ⟨q, hq, by rw [hqp, hpk]⟩
    · intro h
      rcases h with h | rfl
      · obtain ⟨p, hp, hpk⟩ := List.mem_map.mp h
        refine List.mem_map.mpr ⟨if p.1 = n then (n, v) else p, List.mem_map.mpr ⟨p, hp, rfl⟩, ?_⟩
        by_cases hpn : p.1 = n
        · rw [if_pos hpn]; rw [← hpk, hpn]
        · rw [if_neg hpn]; exact hpk
      · obtain ⟨p, hp, hpn⟩ := List.mem_map.mp hmemn
        refine List.mem_map.mpr ⟨if p.1 = k then (k, v) else p, List.mem_map.mpr ⟨p, hp, by rw [hpn]⟩, ?_⟩
        rw [if_pos hpn]
  | false =>
    rw [if_neg (by simp)]
    rw [List.map_append, List.mem_append]
    simp

lemma keysNodup_dictInsert (d : Dict) (n : String) (v : HdrVal)
    (hd : (d.map Prod.fst).Nodup) : ((dictInsert d n v).map Prod.fst).Nodup := by
  unfold dictInsert
  cases hany : d.any (fun p => decide (p.1 = n)) with
  | true =>
    rw [if_pos rfl]
    have hkeys : (d.map (fun p => if p.1 = n then (n, v) else p)).map Prod.fst =
        d.map Prod.fst := by
      rw [List.map_map]
      exact List.map_congr_left (fun p _ => by
        by_cases hp : p.1 = n
        · simp [hp]
        · simp [hp])
    rw [hkeys]
    exact hd
  | false =>
    rw [if_neg (by simp)]
    rw [List.map_append]
    rw [List.nodup_append]
    refine ⟨hd, List.nodup_singleton n, ?_⟩
    intro x hx hx1
    have hxn : x = n := by simpa using hx1
    subst hxn
    obtain ⟨p, hp, hpn⟩ := List.mem_map.mp hx
    have := (List.any_eq_false.mp hany) p hp
    simp [hpn] at this

lemma keysNodup_buildDict (ps : List (String × HdrVal)) :
    ∀ acc : Dict, (acc.map Prod.fst).Nodup →
    ((buildDict acc ps).map Prod.fst).Nodup := by
  induction ps with
  | nil => intro acc h; exact h
  | cons p ps ih =>
    intro acc h
    rw [buildDict_cons]
    exact ih (dictInsert acc p.1 p.2) (keysNodup_dictInsert acc p.1 p.2 h)

lemma mem_keys_buildDict (ps : List (String × HdrVal)) :
    ∀ (acc : Dict) (k : String),
    k ∈ (buildDict acc ps).map Prod.fst ↔
      k ∈ acc.map Prod.fst ∨ k ∈ ps.map Prod.fst := by
  induction ps with
  | nil => intro acc k; simp [buildDict_nil]
  | cons p ps ih =>
    intro acc k
    rw [buildDict_cons, ih (dictInsert acc p.1 p.2) k, keys_dictInsert_mem]
    simp only [List.map_cons, List.mem_cons]
    tauto

lemma pyIdx_le (n : Nat) (i : ℤ) : pyIdx n i ≤ n := by
  unfold pyIdx
  split
  · next h =>
    have : i + (n : ℤ) ≤ (n : ℤ) := by omega
    omega
  · exact min_le_right _ _

lemma pySlice_length {α : Type} (l : List α) (i j : ℤ) :
    (pySlice l i j).length = pyIdx l.length j - pyIdx l.length i := by
  unfold pySlice
  rw [List.length_drop, List.length_take]
  have := pyIdx_le l.length j
  omega

lemma pyIdx_zero (n : Nat) : pyIdx n 0 = 0 := by
  simp [pyIdx]

lemma pyIdx_ge_length (n : Nat) (k : ℤ) (hk : (n : ℤ) ≤ k) :
    pyIdx n k = n := by
  unfold pyIdx
  rw [if_neg (by omega)]
  have : n ≤ k.toNat := by omega
  omega

lemma pyIdx_neg_shift (n : Nat) (i : ℤ) (hneg : i < 0)
    (hge : -(n : ℤ) ≤ i) : pyIdx n i = pyIdx n (i + n) := by
  unfold pyIdx
  rw [if_pos hneg]
  by_cases h2 : i + (n : ℤ) < 0
  · omega
  · rw [if_neg h2]
    have : (i + (n : ℤ)).toNat ≤ n := by omega
    omega

lemma pyIdx_neg_far (n : Nat) (i : ℤ) (hfar : i < -(n : ℤ)) :
    pyIdx n i = 0 := by
  unfold pyIdx
  rw [if_pos (by omega)]
  omega

/-- Inversion of a successful `FilterbankFile` construction: every
intermediate step succeeded and the handle is exactly `mkHandle`. -/
lemma fbOpen_inv (f : FilFile) (h : Handle) (hok : fbOpen f = Except.ok h) :
    ∃ (hdr : Dict) (hsize : Nat) (a d : ℚ) (c b : ℤ) (dt : String),
      read_header f.recs = Except.ok (hdr, hsize) ∧
      getDbl hdr "fch1" = Except.ok a ∧
      getDbl hdr "foff" = Except.ok d ∧
      getInt hdr "nchans" = Except.ok c ∧
      getInt hdr "nbits" = Except.ok b ∧
      Int.fdiv (c * b) 8 ≠ 0 ∧
      ¬ Int.fdiv (c * b) 8 < 0 ∧
      get_dtype b = Except.ok dt ∧
      h = mkHandle f hdr hsize a d c b dt := by
  unfold fbOpen at hok
  cases hrh : read_header f.recs with
  | error e => rw [hrh, exceptBindErr] at hok; exact Except.noConfusion hok
  | ok ph =>
    rw [hrh, exceptBindOk] at hok
    cases ha : getDbl ph.1 "fch1" with
    | error e => rw [ha, exceptBindErr] at hok; exact Except.noConfusion hok
    | ok a =>
      rw [ha, exceptBindOk] at hok
      cases hd : getDbl ph.1 "foff" with
      | error e => rw [hd, exceptBindErr] at hok; exact Except.noConfusion hok
      | ok d =>
        rw [hd, exceptBindOk] at hok
        cases hc : getInt ph.1 "nchans" with
        | error e => rw [hc, exceptBindErr] at hok; exact Except.noConfusion hok
        | ok c =>
          rw [hc, exceptBindOk] at hok
          cases hb : getInt ph.1 "nbits" with
          | error e => rw [hb, exceptBindErr] at hok; exact Except.noConfusion hok
          | ok b =>
            rw [hb, exceptBindOk] at hok
            by_cases hz : Int.fdiv (c * b) 8 = 0
            · rw [if_pos hz] at hok; exact Except.noConfusion hok
            · rw [if_neg hz] at hok
              cases hdt : get_dtype b with
              | error e =>
                rw [hdt, exceptBindErr] at hok; exact Except.noConfusion hok
              | ok dt =>
                rw [hdt, exceptBindOk] at hok
                by_cases hneg : Int.fdiv (c * b) 8 < 0
                · rw [if_pos hneg] at hok; exact Except.noConfusion hok
                · rw [if_neg hneg] at hok
                  refine ⟨ph.1, ph.2, a, d, c, b, dt, rfl, ha, hd,
                    hc, hb, hz, hneg, hdt, ?_⟩
                  cases hok
                  rfl

lemma getDbl_ok_iff (d : Dict) (k : String) (q : ℚ) :
    getDbl d k = Except.ok q ↔ dlookup d k = some (HdrVal.dbl q) := by
  unfold getDbl
  cases h : dlookup d k with
  | none => simp
  | some val => cases val <;> simp

lemma getInt_ok_iff (d : Dict) (k : String) (i : ℤ) :
    getInt d k = Except.ok i ↔ dlookup d k = some (HdrVal.int i) := by
  unfold getInt
  cases h : dlookup d k with
  | none => simp
  | some val => cases val <;> simp

lemma nat_lt_div_succ_mul (a bp : Nat) (hb : 0 < bp) :
    a < (a / bp + 1) * bp := by
  have h1 : a % bp < bp := Nat.mod_lt _ hb
  have h2 : bp * (a / bp) + a % bp = a := Nat.div_add_mod a bp
  calc a = bp * (a / bp) + a % bp := h2.symm
    _ < bp * (a / bp) + bp := by omega
    _ = (a / bp + 1) * bp := by ring

lemma getD_range_map {β : Type} (fn : ℕ → β) (n i : ℕ) (dflt : β)
    (hi : i < n) : ((List.range n).map fn).getD i dflt = fn i := by
  rw [List.getD_eq_getElem?_getD, List.getElem?_map, List.getElem?_range hi]
  rfl

lemma countP_eq_one_of_nodup_mem (l : List String) (k : String)
    (hnd : l.Nodup) (hmem : k ∈ l) :
    l.countP (fun x => decide (x = k)) = 1 := by
  induction l with
  | nil => simp at hmem
  | cons x l ih =>
    rw [List.countP_cons]
    rcases List.mem_cons.mp hmem with rfl | hm
    · have hx : k ∉ l := (List.nodup_cons.mp hnd).1
      have hz : l.countP (fun y => decide (y = k)) = 0 := by
        rw [List.countP_eq_zero]
        intro a ha
        simp only [decide_eq_true_eq]
        exact fun h => hx (h ▸ ha)
      simp [hz]
    · have hx : ¬ (x = k) := fun h => (List.nodup_cons.mp hnd).1 (h ▸ hm)
      rw [ih (List.nodup_cons.mp hnd).2 hm]
      simp [hx]

/-! ### Claim theorems -/

/-- C1: the claimed round-trip `open(create(path, h, s))` can never happen.
`create_filterbank_file` is a module-level function whose body reads
`self.header` and `self.spectra`; `self` is unbound there, so Python raises
`NameError` for every header and sample array, right after writing the
start sentinel and before writing any header field.  This contradicts the
function's own docstring ("Write filterbank header and spectra to file"):
the code, not the claim, is at fault. -/
theorem create_filterbank_file_raises (outfn : String) (header : Dict)
    (spectra : Option (List Nat)) (verbose : Bool) :
    create_filterbank_file outfn header spectra verbose =
      Except.error (Err.nameError "self") := rfl

/-- C2: on a stream whose records before the first end sentinel all decode
to non-end records, `read_header` consumes records one at a time up to and
including the end sentinel (never touching what follows), stores every
decoded `(name, value)` pair by dictionary assignment — the two sentinel
names excluded — and returns as `header_size` the byte position immediately
after the end sentinel. -/
theorem read_header_reads_until_end (rs rest : List RawRecord)
    (hv : ∀ r ∈ rs, recOkNonEnd r = true) :
    read_header (rs ++ ("HEADER_END", none) :: rest) =
      Except.ok (buildDict [] (fieldsOf rs),
        streamSize rs + recSize ("HEADER_END", none)) :=
  read_header_append rs rest hv

/-- Witness for C2 on a concrete stream (with trailing records that are
provably not read). -/
theorem read_header_reads_until_end_witness :
    (∀ r ∈ [(("HEADER_START", none) : RawRecord),
        ("nchans", some (HdrVal.int 4)), ("source_name", some (HdrVal.str "x"))],
      recOkNonEnd r = true) ∧
    read_header ([(("HEADER_START", none) : RawRecord),
        ("nchans", some (HdrVal.int 4)), ("source_name", some (HdrVal.str "x"))] ++
        ("HEADER_END", none) :: [("machine_id", some (HdrVal.int 9))]) =
      Except.ok (buildDict [] (fieldsOf
          [(("HEADER_START", none) : RawRecord),
           ("nchans", some (HdrVal.int 4)), ("source_name", some (HdrVal.str "x"))]),
        streamSize [(("HEADER_START", none) : RawRecord),
           ("nchans", some (HdrVal.int 4)), ("source_name", some (HdrVal.str "x"))] +
          recSize ("HEADER_END", none)) :=
  ⟨by decide,
   read_header_reads_until_end
     [("HEADER_START", none), ("nchans", some (HdrVal.int 4)),
      ("source_name", some (HdrVal.str "x"))]
     [("machine_id", some (HdrVal.int 9))] (by decide)⟩

/-- C3 counterexample: a stream whose first decoded record is the known
field `nchans` — not `HEADER_START` — decodes successfully instead of
failing with `MalformedHeader`. -/
theorem read_header_no_start_counterexample :
    read_header noStartRecs = Except.ok ([("nchans", HdrVal.int 4)], 28) := rfl

/-- C3 amended: `read_header` performs no start-sentinel check at all.  A
record whose name is outside the closed vocabulary (and not a sentinel)
makes decoding fail with `MalformedHeader`; but a stream whose first record
is any valid non-end record — in particular a known field rather than
`HEADER_START` — decodes successfully. -/
theorem read_header_no_start_check :
    (∀ (name : String) (ov : Option HdrVal) (rest : List RawRecord),
      headerTable.find? (fun p => decide (p.1 = name)) = none →
      name ≠ "HEADER_START" → name ≠ "HEADER_END" →
      read_header ((name, ov) :: rest) = Except.error Err.malformedHeader) ∧
    (∀ (r : RawRecord) (rs rest : List RawRecord),
      recOkNonEnd r = true → r.1 ≠ "HEADER_START" →
      (∀ x ∈ rs, recOkNonEnd x = true) →
      read_header ((r :: rs) ++ ("HEADER_END", none) :: rest) =
        Except.ok (buildDict [] (fieldsOf (r :: rs)),
          streamSize (r :: rs) + recSize ("HEADER_END", none))) := by
  constructor
  · intro name ov rest hfind hs he
    have hrv : read_hdr_val (name, ov) = Except.error Err.malformedHeader := by
      unfold read_hdr_val
      rw [if_neg (by simp [hs, he])]
      rw [hfind]
    unfold read_header
    simp only [readHeaderLoop, hrv]
  · intro r rs rest hr hs hv
    refine read_header_append (r :: rs) rest ?_
    intro x hx
    rcases List.mem_cons.mp hx with rfl | h2
    · exact hr
    · exact hv x h2

/-- Witness for the amended C3: an unknown first name fails, and a valid
known-field first record succeeds. -/
theorem read_header_no_start_check_witness :
    (headerTable.find? (fun p => decide (p.1 = "refdm")) = none ∧
      read_header [("refdm", some (HdrVal.dbl 1))] =
        Except.error Err.malformedHeader) ∧
    (recOkNonEnd ("nchans", some (HdrVal.int 4)) = true ∧
      read_header ([(("nchans", some (HdrVal.int 4)) : RawRecord)] ++
          ("HEADER_END", none) :: []) =
        Except.ok (buildDict [] (fieldsOf [(("nchans", some (HdrVal.int 4)) : RawRecord)]),
          streamSize [(("nchans", some (HdrVal.int 4)) : RawRecord)] +
            recSize ("HEADER_END", none))) :=
  ⟨⟨rfl, read_header_no_start_check.1 "refdm" (some (HdrVal.dbl 1)) [] rfl
      (by decide) (by decide)⟩,
   ⟨by decide, read_header_no_start_check.2 ("nchans", some (HdrVal.int 4)) [] []
      (by decide) (by decide) (by intro x hx; simp at hx)⟩⟩

/-- C10: if a non-sentinel field name appears in more than one record
before the end sentinel, `read_header` still succeeds, the returned mapping
holds that name exactly once, and its value is the last occurrence's value
(later assignments overwrite earlier ones). -/
theorem read_header_duplicate_last_wins (rs rest : List RawRecord)
    (k : String) (hv : ∀ r ∈ rs, recOkNonEnd r = true)
    (hdup : 2 ≤ (fieldsOf rs).countP (fun p => decide (p.1 = k))) :
    read_header (rs ++ ("HEADER_END", none) :: rest) =
      Except.ok (buildDict [] (fieldsOf rs),
        streamSize rs + recSize ("HEADER_END", none)) ∧
    ((buildDict [] (fieldsOf rs)).map Prod.fst).countP
      (fun x => decide (x = k)) = 1 ∧
    dlookup (buildDict [] (fieldsOf rs)) k = lastOcc (fieldsOf rs) k ∧
    (lastOcc (fieldsOf rs) k).isSome = true := by
  have hpos : 0 < (fieldsOf rs).countP (fun p => decide (p.1 = k)) := by omega
  obtain ⟨p, hp, hpk⟩ := List.countP_pos.mp hpos
  have hpk2 : p.1 = k := by simpa using hpk
  have hsome : (lastOcc (fieldsOf rs) k).isSome = true :=
    (lastOcc_isSome (fieldsOf rs) k).mpr ⟨p, hp, hpk2⟩
  have hmem : k ∈ (buildDict [] (fieldsOf rs)).map Prod.fst := by
    rw [mem_keys_buildDict]
    exact Or.inr (List.mem_map.mpr ⟨p, hp, hpk2⟩)
  have hnd : ((buildDict [] (fieldsOf rs)).map Prod.fst).Nodup :=
    keysNodup_buildDict (fieldsOf rs) [] (by simp)
  refine ⟨read_header_append rs rest hv,
    countP_eq_one_of_nodup_mem _ k hnd hmem, ?_, hsome⟩
  rw [dlookup_buildDict (fieldsOf rs) [] k]
  obtain ⟨v, hveq⟩ := Option.isSome_iff_exists.mp hsome
  rw [hveq]

/-- Witness for C10: `nchans` appears twice before the end sentinel; the
final mapping binds it once, to the later value. -/
theorem read_header_duplicate_last_wins_witness :
    ((∀ r ∈ dupRecs, recOkNonEnd r = true) ∧
      2 ≤ (fieldsOf dupRecs).countP (fun p => decide (p.1 = "nchans"))) ∧
    (read_header (dupRecs ++ ("HEADER_END", none) :: []) =
      Except.ok (buildDict [] (fieldsOf dupRecs),
        streamSize dupRecs + recSize ("HEADER_END", none)) ∧
    ((buildDict [] (fieldsOf dupRecs)).map Prod.fst).countP
      (fun x => decide (x = "nchans")) = 1 ∧
    dlookup (buildDict [] (fieldsOf dupRecs)) "nchans" =
      lastOcc (fieldsOf dupRecs) "nchans" ∧
    (lastOcc (fieldsOf dupRecs) "nchans").isSome = true) :=
  ⟨⟨by decide, by decide⟩,
   read_header_duplicate_last_wins dupRecs [] "nchans" (by decide) (by decide)⟩

/-- C4 counterexample: a file whose parsed header has `nbits = 4` — outside
{8, 16, 32} — and `nchans = 1`.  Python 2 floor division gives
`bytes_per_spectrum = 1*4/8 = 0`, so `__init__` raises `ZeroDivisionError`
at the `nspec = data_size / bytes_per_spectrum` line before `get_dtype` is
ever evaluated: opening fails, but not with the unsupported-sample-width
error the claim requires. -/
theorem fbOpen_nbits4_counterexample :
    fbOpen exFile4 = Except.error Err.zeroDivision ∧
    Err.zeroDivision ≠ Err.notImplemented := ⟨rfl, by decide⟩

/-- C4 amended: `get_dtype` maps 8/16/32 to `uint8`/`uint16`/`float32` and
rejects every other width with the unsupported-sample-width error; a
successfully opened file therefore always has `nbits ∈ {8, 16, 32}` and the
matching dtype.  Opening a file with an out-of-vocabulary width fails with
the unsupported-sample-width error **provided** the floor quotient
`nchans*nbits/8` is nonzero; when that quotient is zero (e.g. `nchans=1,
nbits=4`) opening instead fails earlier with `ZeroDivisionError`. -/
theorem fbOpen_unsupported_nbits :
    (∀ b : ℤ, ¬ (b = 32 ∨ b = 16 ∨ b = 8) →
      get_dtype b = Except.error Err.notImplemented) ∧
    get_dtype 8 = Except.ok "uint8" ∧
    get_dtype 16 = Except.ok "uint16" ∧
    get_dtype 32 = Except.ok "float32" ∧
    (∀ (f : FilFile) (h : Handle), fbOpen f = Except.ok h →
      ∃ b : ℤ, getInt h.header "nbits" = Except.ok b ∧
        (b = 32 ∨ b = 16 ∨ b = 8) ∧
        h.dtype = (if b = 32 then "float32" else "uint" ++ toString b)) ∧
    (∀ (f : FilFile) (hdr : Dict) (hsize : Nat) (a d : ℚ) (c b : ℤ),
      read_header f.recs = Except.ok (hdr, hsize) →
      getDbl hdr "fch1" = Except.ok a →
      getDbl hdr "foff" = Except.ok d →
      getInt hdr "nchans" = Except.ok c →
      getInt hdr "nbits" = Except.ok b →
      ¬ (b = 32 ∨ b = 16 ∨ b = 8) →
      Int.fdiv (c * b) 8 ≠ 0 →
      fbOpen f = Except.error Err.notImplemented) := by
  refine ⟨?_, rfl, rfl, rfl, ?_, ?_⟩
  · intro b hb
    unfold get_dtype
    rw [if_pos hb]
  · intro f h hok
    obtain ⟨hdr, hsize, a, d, c, b, dt, hrh, ha, hd, hc, hb, hz, hneg, hdt, rfl⟩ :=
      fbOpen_inv f h hok
    refine ⟨b, by simpa [mkHandle] using hb, ?_, ?_⟩
    · by_contra hbad
      unfold get_dtype at hdt
      rw [if_pos hbad] at hdt
      exact Except.noConfusion hdt
    · unfold get_dtype at hdt
      by_cases hbad : ¬ (b = 32 ∨ b = 16 ∨ b = 8)
      · rw [if_pos hbad] at hdt; exact Except.noConfusion hdt
      · rw [if_neg hbad] at hdt
        by_cases h32 : b = 32
        · rw [if_pos h32] at hdt
          cases hdt
          simp [mkHandle, h32]
        · rw [if_neg h32] at hdt
          cases hdt
          simp [mkHandle, h32]
  · intro f hdr hsize a d c b hrh ha hd hc hb hbad hz
    unfold fbOpen
    rw [hrh, exceptBindOk]
    rw [ha, exceptBindOk, hd, exceptBindOk, hc, exceptBindOk, hb, exceptBindOk]
    rw [if_neg hz]
    have hdt : get_dtype b = Except.error Err.notImplemented := by
      unfold get_dtype
      rw [if_pos hbad]
    rw [hdt, exceptBindErr]

/-- Witness for the amended C4: `nbits = 64` is rejected by `get_dtype`,
and opening a file declaring `nchans=1, nbits=64` fails with the
unsupported-sample-width error. -/
theorem fbOpen_unsupported_nbits_witness :
    (¬ ((64:ℤ) = 32 ∨ (64:ℤ) = 16 ∨ (64:ℤ) = 8)) ∧
    get_dtype 64 = Except.error Err.notImplemented ∧
    Int.fdiv ((1:ℤ) * 64) 8 ≠ 0 ∧
    fbOpen exFile64 = Except.error Err.notImplemented :=
  ⟨by decide, fbOpen_unsupported_nbits.1 64 (by decide), by decide,
   fbOpen_unsupported_nbits.2.2.2.2.2 exFile64
     [("fch1", HdrVal.dbl 1400), ("foff", HdrVal.dbl (-1)),
      ("nchans", HdrVal.int 1), ("nbits", HdrVal.int 64)] 89
     1400 (-1) 1 64 rfl rfl rfl rfl rfl (by decide) (by decide)⟩

/-- C5: for every successfully opened file the cached geometry satisfies
`nspec * bytes_per_spectrum ≤ data_size < (nspec+1) * bytes_per_spectrum`,
with `data_size` the file size minus `header_size`. -/
theorem fbOpen_geometry_bounds (f : FilFile) (h : Handle)
    (hok : fbOpen f = Except.ok h) :
    h.nspec * h.bytes_per_spectrum ≤ h.data_size ∧
    h.data_size < (h.nspec + 1) * h.bytes_per_spectrum ∧
    h.data_size = (fileBytes f).length - h.header_size := by
  obtain ⟨hdr, hsize, a, d, c, b, dt, hrh, ha, hd, hc, hb, hz, hneg, hdt, rfl⟩ :=
    fbOpen_inv f h hok
  have hbpos : 0 < (Int.fdiv (c * b) 8).toNat := by omega
  simp only [mkHandle]
  exact ⟨Nat.div_mul_le_self _ _, nat_lt_div_succ_mul _ _ hbpos, by trivial⟩

/-- Witness for C5 on the concrete example file. -/
theorem fbOpen_geometry_bounds_witness :
    fbOpen exFile = Except.ok hdlEx ∧
    (hdlEx.nspec * hdlEx.bytes_per_spectrum ≤ hdlEx.data_size ∧
     hdlEx.data_size < (hdlEx.nspec + 1) * hdlEx.bytes_per_spectrum ∧
     hdlEx.data_size = (fileBytes exFile).length - hdlEx.header_size) :=
  ⟨rfl, fbOpen_geometry_bounds exFile hdlEx rfl⟩

/-- C6: when `data_size` is not an exact multiple of `bytes_per_spectrum`
(and the file still opens successfully — the witness shows the concrete
`data_size=10, bytes_per_spectrum=4` scenario with `nspec=2`), the
non-fatal warning flag is set, `spectra_count` is the truncated quotient,
and `get_spectra(0, spectra_count)` yields exactly `spectra_count` complete
spectra — the trailing partial spectrum is not addressable. -/
theorem fbOpen_partial_spectrum_warn (f : FilFile) (h : Handle)
    (hok : fbOpen f = Except.ok h)
    (hmod : h.data_size % h.bytes_per_spectrum ≠ 0) :
    h.warned = true ∧
    h.nspec = h.data_size / h.bytes_per_spectrum ∧
    (get_spectra h 0 (h.nspec : ℤ)).length = h.nspec ∧
    (∀ row ∈ get_spectra h 0 (h.nspec : ℤ),
      row.length = h.bytes_per_spectrum) := by
  obtain ⟨hdr, hsize, a, d, c, b, dt, hrh, ha, hd, hc, hb, hz, hneg, hdt, rfl⟩ :=
    fbOpen_inv f h hok
  have hbpos : 0 < (Int.fdiv (c * b) 8).toNat := by omega
  have hsle : hsize ≤ (fileBytes f).length := by
    have h1 := read_header_size_le f.recs hdr hsize hrh
    rw [fileBytes_length]
    omega
  have hB : (mkHandle f hdr hsize a d c b dt).bytes_per_spectrum =
      (Int.fdiv (c * b) 8).toNat := rfl
  have hD : (mkHandle f hdr hsize a d c b dt).data_size =
      (fileBytes f).length - hsize := rfl
  have hN : (mkHandle f hdr hsize a d c b dt).nspec =
      ((fileBytes f).length - hsize) / (Int.fdiv (c * b) 8).toNat := rfl
  have hW : (mkHandle f hdr hsize a d c b dt).warned =
      decide (((fileBytes f).length - hsize) %
        (Int.fdiv (c * b) 8).toNat ≠ 0) := rfl
  have hS : (mkHandle f hdr hsize a d c b dt).spectra =
      (List.range (((fileBytes f).length - hsize) /
          (Int.fdiv (c * b) 8).toNat)).map
        (fun i => ((fileBytes f).drop
            (hsize + i * (Int.fdiv (c * b) 8).toNat)).take
          ((Int.fdiv (c * b) 8).toNat)) := rfl
  rw [hD, hB] at hmod
  set bps := (Int.fdiv (c * b) 8).toNat with hbps
  set ds := (fileBytes f).length - hsize with hds0
  set nspec := ds / bps with hnspec0
  have hlenfull : ((List.range nspec).map
      (fun i => ((fileBytes f).drop (hsize + i * bps)).take bps)).length =
      nspec := by
    rw [List.length_map, List.length_range]
  refine ⟨by rw [hW]; simpa using hmod, by rw [hN, hD, hB], ?_, ?_⟩
  · unfold get_spectra
    rw [hS, hN, pySlice_length, hlenfull, pyIdx_zero,
      pyIdx_ge_length _ _ (le_refl _)]
    omega
  · intro row hrow
    unfold get_spectra at hrow
    rw [hS] at hrow
    unfold pySlice at hrow
    have hmem : row ∈ (List.range nspec).map
        (fun i => ((fileBytes f).drop (hsize + i * bps)).take bps) :=
      List.mem_of_mem_take (List.mem_of_mem_drop hrow)
    obtain ⟨i, hi, rfl⟩ := List.mem_map.mp hmem
    rw [List.mem_range] at hi
    rw [hB, List.length_take, List.length_drop]
    have hsucc : (i + 1) * bps ≤ nspec * bps :=
      Nat.mul_le_mul_right _ hi
    have hfloor : nspec * bps ≤ ds := by
      rw [hnspec0]
      exact Nat.div_mul_le_self ds bps
    have h4 : hsize + ds = (fileBytes f).length := by
      rw [hds0]
      exact Nat.add_sub_cancel' hsle
    have hkey : bps + (hsize + i * bps) ≤ (fileBytes f).length := by
      calc bps + (hsize + i * bps) = hsize + (i + 1) * bps := by ring
        _ ≤ hsize + nspec * bps := Nat.add_le_add_left hsucc hsize
        _ ≤ hsize + ds := Nat.add_le_add_left hfloor hsize
        _ = (fileBytes f).length := h4
    exact min_eq_left (Nat.le_sub_of_add_le hkey)

/-- Witness for C6: the spec scenario (`data_size=10`,
`bytes_per_spectrum=4`): opening succeeds, the warning fires, `nspec=2`,
and the two addressable spectra are complete. -/
theorem fbOpen_partial_spectrum_warn_witness :
    (fbOpen exFile = Except.ok hdlEx ∧
      hdlEx.data_size % hdlEx.bytes_per_spectrum ≠ 0 ∧
      hdlEx.data_size = 10 ∧ hdlEx.bytes_per_spectrum = 4) ∧
    (hdlEx.warned = true ∧
     hdlEx.nspec = hdlEx.data_size / hdlEx.bytes_per_spectrum ∧
     (get_spectra hdlEx 0 (hdlEx.nspec : ℤ)).length = hdlEx.nspec ∧
     (∀ row ∈ get_spectra hdlEx 0 (hdlEx.nspec : ℤ),
       row.length = hdlEx.bytes_per_spectrum)) :=
  ⟨⟨rfl, by decide, rfl, rfl⟩,
   fbOpen_partial_spectrum_warn exFile hdlEx rfl (by decide)⟩

/-- C7: for every opened handle the derived frequency sequence has length
`nchans` with `freq[i] = fch1 + foff*i`; it is strictly decreasing for
`foff < 0`, strictly increasing for `foff > 0`, constant for `foff = 0`;
the descending-frequency flag is exactly `foff < 0`.  The spec's concrete
scenario (`fch1=1400, foff=-1, nchans=4`) yields
`[1400, 1399, 1398, 1397]` with the flag set. -/
theorem fbOpen_channel_frequencies :
    (∀ (f : FilFile) (h : Handle) (a d : ℚ) (c : ℤ),
      fbOpen f = Except.ok h →
      dlookup h.header "fch1" = some (HdrVal.dbl a) →
      dlookup h.header "foff" = some (HdrVal.dbl d) →
      dlookup h.header "nchans" = some (HdrVal.int c) →
      h.frequencies.length = c.toNat ∧
      (∀ i : ℕ, i < c.toNat → h.frequencies.getD i 0 = a + d * (i : ℚ)) ∧
      (d < 0 → ∀ i j : ℕ, i < j → j < c.toNat →
        h.frequencies.getD j 0 < h.frequencies.getD i 0) ∧
      (0 < d → ∀ i j : ℕ, i < j → j < c.toNat →
        h.frequencies.getD i 0 < h.frequencies.getD j 0) ∧
      (d = 0 → ∀ i j : ℕ, i < c.toNat → j < c.toNat →
        h.frequencies.getD i 0 = h.frequencies.getD j 0) ∧
      h.is_hifreq_first = decide (d < 0)) ∧
    hdlEx.frequencies = [1400, 1399, 1398, 1397] ∧
    hdlEx.is_hifreq_first = true := by
  constructor
  · intro f h a d c hok hfa hfd hfc
    obtain ⟨hdr, hsize, a2, d2, c2, b, dt, hrh, ha2, hd2, hc2, hb2, hz, hng,
      hdt, rfl⟩ := fbOpen_inv f h hok
    have hhdr : (mkHandle f hdr hsize a2 d2 c2 b dt).header = hdr := rfl
    rw [hhdr] at hfa hfd hfc
    rw [getDbl_ok_iff] at ha2 hd2
    rw [getInt_ok_iff] at hc2
    rw [ha2] at hfa
    rw [hd2] at hfd
    rw [hc2] at hfc
    have haa : a = a2 := by cases hfa; rfl
    have hdd : d = d2 := by cases hfd; rfl
    have hcc : c = c2 := by cases hfc; rfl
    subst haa hdd hcc
    have hF : (mkHandle f hdr hsize a d c b dt).frequencies =
        (List.range c.toNat).map (fun i : ℕ => a + d * (i : ℚ)) := rfl
    have hget : ∀ i : ℕ, i < c.toNat →
        (mkHandle f hdr hsize a d c b dt).frequencies.getD i 0 =
          a + d * (i : ℚ) := by
      intro i hi
      rw [hF]
      exact getD_range_map _ _ _ _ hi
    refine ⟨by rw [hF]; simp, hget, ?_, ?_, ?_, rfl⟩
    · intro hdneg i j hij hj
      rw [hget i (lt_trans hij hj), hget j hj]
      have hcast : (i : ℚ) < (j : ℚ) := by exact_mod_cast hij
      have := mul_lt_mul_of_neg_left hcast hdneg
      linarith
    · intro hdpos i j hij hj
      rw [hget i (lt_trans hij hj), hget j hj]
      have hcast : (i : ℚ) < (j : ℚ) := by exact_mod_cast hij
      have := mul_lt_mul_of_pos_left hcast hdpos
      linarith
    · intro hd0 i j hi hj
      rw [hget i hi, hget j hj, hd0]
      ring
  · constructor
    · show (List.range (4:ℤ).toNat).map
        (fun i : ℕ => (1400:ℚ) + (-1) * (i : ℚ)) = [1400, 1399, 1398, 1397]
      simp only [show (4:ℤ).toNat = 4 from rfl, List.range_succ,
        List.range_zero, List.map_append, List.map_cons, List.map_nil,
        List.nil_append, List.cons_append]
      norm_num
    · rfl

/-- Witness for C7: the general part instantiated at the spec's scenario
file. -/
theorem fbOpen_channel_frequencies_witness :
    (fbOpen exFile = Except.ok hdlEx ∧
      dlookup hdlEx.header "fch1" = some (HdrVal.dbl 1400) ∧
      dlookup hdlEx.header "foff" = some (HdrVal.dbl (-1)) ∧
      dlookup hdlEx.header "nchans" = some (HdrVal.int 4)) ∧
    (hdlEx.frequencies.length = (4:ℤ).toNat ∧
      (∀ i : ℕ, i < (4:ℤ).toNat →
        hdlEx.frequencies.getD i 0 = 1400 + (-1) * (i : ℚ)) ∧
      ((-1:ℚ) < 0 → ∀ i j : ℕ, i < j → j < (4:ℤ).toNat →
        hdlEx.frequencies.getD j 0 < hdlEx.frequencies.getD i 0) ∧
      ((0:ℚ) < -1 → ∀ i j : ℕ, i < j → j < (4:ℤ).toNat →
        hdlEx.frequencies.getD i 0 < hdlEx.frequencies.getD j 0) ∧
      ((-1:ℚ) = 0 → ∀ i j : ℕ, i < (4:ℤ).toNat → j < (4:ℤ).toNat →
        hdlEx.frequencies.getD i 0 = hdlEx.frequencies.getD j 0) ∧
      hdlEx.is_hifreq_first = decide ((-1:ℚ) < 0)) :=
  ⟨⟨rfl, rfl, rfl, rfl⟩,
   fbOpen_channel_frequencies.1 exFile hdlEx 1400 (-1) 4 rfl rfl rfl rfl⟩

/-- C8: `get_timeslice(start, stop)` looks up `tsamp`, converts each bound
with `round(bound/tsamp)` (numpy rounding, half to even), and returns
exactly `get_spectra` of the two converted indices. -/
theorem get_timeslice_delegates (h : Handle) (s e ts : ℚ)
    (hts : dlookup h.header "tsamp" = some (HdrVal.dbl ts)) (h0 : ts ≠ 0) :
    get_timeslice h s e =
      Except.ok (get_spectra h (roundHalfEven (s / ts))
        (roundHalfEven (e / ts))) := by
  unfold get_timeslice
  have hget : getDbl h.header "tsamp" = Except.ok ts :=
    (getDbl_ok_iff _ _ _).mpr hts
  rw [hget, exceptBindOk, if_neg h0]

/-- Witness for C8 on the scenario handle (`tsamp = 0.001`). -/
theorem get_timeslice_delegates_witness :
    (dlookup hdlEx.header "tsamp" = some (HdrVal.dbl (1/1000)) ∧
      (1/1000 : ℚ) ≠ 0) ∧
    get_timeslice hdlEx 0 1 =
      Except.ok (get_spectra hdlEx (roundHalfEven (0 / (1/1000)))
        (roundHalfEven (1 / (1/1000)))) :=
  ⟨⟨rfl, by simp⟩,
   get_timeslice_delegates hdlEx 0 1 (1/1000) rfl (by simp)⟩

/-- C9 counterexample: on a handle with 3 spectra, `get_spectra(-1, 3)`
returns the single last spectrum (Python interprets a negative start
relative to the end), not the 3 spectra that "truncating the requested
range to `[0, spectra_count)`" would give. -/
theorem get_spectra_clamp_counterexample :
    fbOpen exFile9 = Except.ok hdl9 ∧
    hdl9.nspec = 3 ∧
    (get_spectra hdl9 (-1) 3).length = 1 ∧
    (specClampSlice hdl9.spectra (-1) 3).length = 3 ∧
    get_spectra hdl9 (-1) 3 ≠ specClampSlice hdl9.spectra (-1) 3 :=
  ⟨rfl, rfl, rfl, rfl, by decide⟩

/-- C9 amended: `get_spectra` never raises for any integer bounds — it is
total and always returns at most `spectra_count` spectra; a stop bound at
or beyond `spectra_count` is clamped, so `get_spectra(0, k)` with
`k ≥ spectra_count` returns exactly `spectra_count` spectra; but a negative
start within `[-spectra_count, 0)` is interpreted relative to the end
(Python slice semantics), and only a start below `-spectra_count` clamps
to 0 — the requested range is not simply truncated into
`[0, spectra_count)`. -/
theorem get_spectra_slice_semantics (f : FilFile) (h : Handle)
    (hok : fbOpen f = Except.ok h) :
    h.spectra.length = h.nspec ∧
    (∀ start stop : ℤ, (get_spectra h start stop).length ≤ h.nspec) ∧
    (∀ k : ℤ, (h.nspec : ℤ) ≤ k → (get_spectra h 0 k).length = h.nspec) ∧
    (∀ start stop : ℤ, start < 0 → -(h.nspec : ℤ) ≤ start →
      get_spectra h start stop =
        get_spectra h (start + (h.nspec : ℤ)) stop) ∧
    (∀ start stop : ℤ, start < -(h.nspec : ℤ) →
      get_spectra h start stop = get_spectra h 0 stop) := by
  obtain ⟨hdr, hsize, a, d, c, b, dt, hrh, ha, hd, hc, hb, hz, hng, hdt, rfl⟩ :=
    fbOpen_inv f h hok
  have hS : (mkHandle f hdr hsize a d c b dt).spectra =
      (List.range (((fileBytes f).length - hsize) /
          (Int.fdiv (c * b) 8).toNat)).map
        (fun i => ((fileBytes f).drop
            (hsize + i * (Int.fdiv (c * b) 8).toNat)).take
          ((Int.fdiv (c * b) 8).toNat)) := rfl
  have hN : (mkHandle f hdr hsize a d c b dt).nspec =
      ((fileBytes f).length - hsize) / (Int.fdiv (c * b) 8).toNat := rfl
  have hsl : (mkHandle f hdr hsize a d c b dt).spectra.length =
      (mkHandle f hdr hsize a d c b dt).nspec := by
    rw [hS, hN, List.length_map, List.length_range]
  refine ⟨hsl, ?_, ?_, ?_, ?_⟩
  · intro start stop
    unfold get_spectra
    rw [pySlice_length, hsl]
    have h1 := pyIdx_le ((mkHandle f hdr hsize a d c b dt).nspec) stop
    omega
  · intro k hk
    unfold get_spectra
    rw [pySlice_length, hsl, pyIdx_zero, pyIdx_ge_length _ _ hk]
    omega
  · intro start stop hneg hge
    unfold get_spectra pySlice
    rw [hsl, pyIdx_neg_shift _ start hneg hge]
  · intro start stop hfar
    unfold get_spectra pySlice
    rw [hsl, pyIdx_neg_far _ start hfar, pyIdx_zero]

/-- Witness for the amended C9 on the 3-spectrum handle. -/
theorem get_spectra_slice_semantics_witness :
    fbOpen exFile9 = Except.ok hdl9 ∧
    (hdl9.spectra.length = hdl9.nspec ∧
     (∀ start stop : ℤ, (get_spectra hdl9 start stop).length ≤ hdl9.nspec) ∧
     (∀ k : ℤ, (hdl9.nspec : ℤ) ≤ k →
       (get_spectra hdl9 0 k).length = hdl9.nspec) ∧
     (∀ start stop : ℤ, start < 0 → -(hdl9.nspec : ℤ) ≤ start →
       get_spectra hdl9 start stop =
         get_spectra hdl9 (start + (hdl9.nspec : ℤ)) stop) ∧
     (∀ start stop : ℤ, start < -(hdl9.nspec : ℤ) →
       get_spectra hdl9 start stop = get_spectra hdl9 0 stop)) :=
  ⟨rfl, get_spectra_slice_semantics exFile9 hdl9 rfl⟩
